import Mathlib

/-!
Verification development for the quant backtesting repository.

The embedding translates the Python sources into Lean over exact rational
arithmetic.  Machine floats are modelled by `ℚ` (and by `ℝ` where the source
takes square roots or fractional powers); the extended IEEE values produced by
pandas division (`inf`, `-inf`, `NaN`) are modelled explicitly by the `PVal`
type where the source relies on them (the RSI computation).  Rational division
in Lean is total with `x / 0 = 0`; every theorem that feeds a denominator
restricts itself to inputs (positive portfolio values) on which the source
performs ordinary finite division, so the two semantics agree there.
-/

namespace Quant

/-! ## Performance analyzer (src/analysis/performance_analyzer.py, calculate_metrics) -/

/-- Tail of `pandas.Series.pct_change`: each element is `x / prev - 1` for the
running previous value `prev`.  From `calculate_metrics` line 61. -/
def returns_from (prev : ℚ) : List ℚ → List ℚ
  | [] => []
  | x :: xs => (x / prev - 1) :: returns_from x xs

/-- Daily returns of the portfolio-value series:
`portfolio_values.pct_change().fillna(0)`.  The first entry, undefined for
`pct_change`, is filled with `0`. -/
def daily_returns : List ℚ → List ℚ
  | [] => []
  | v :: rest => 0 :: returns_from v rest

/-- Arithmetic mean of a list of rationals (used by the sample variance). -/
def qmean (l : List ℚ) : ℚ := l.sum / l.length

/-- Sample variance with the pandas default `ddof = 1`, the square of
`daily_returns.std()` in `calculate_metrics` line 71. -/
def sample_var (l : List ℚ) : ℚ :=
  (l.map (fun x => (x - qmean l) ^ 2)).sum / ((l.length : ℚ) - 1)

/-- Total return in percent: `(iloc[-1] / iloc[0] - 1) * 100`
(code line 64). -/
def total_return (pv : List ℚ) : ℚ := (pv.getLastD 0 / pv.headD 0 - 1) * 100

/-- Annualized return in percent:
`((1 + total_return/100) ** (252/days) - 1) * 100` (code line 68). -/
noncomputable def annual_return (pv : List ℚ) : ℝ :=
  ((1 + (total_return pv : ℝ) / 100) ^ ((252 : ℝ) / (pv.length : ℝ)) - 1) * 100

/-- Annualized volatility in percent:
`daily_returns.std() * sqrt(252) * 100` (code line 71). -/
noncomputable def ann_vol (pv : List ℚ) : ℝ :=
  Real.sqrt ((sample_var (daily_returns pv) : ℚ) : ℝ) * Real.sqrt 252 * 100

/-- Sharpe ratio with a 3 percent risk-free rate, guarded against a zero
volatility exactly as in code line 75:
`(annual_return/100 - 0.03) / (volatility/100) if volatility != 0 else 0`. -/
noncomputable def sharpe (pv : List ℚ) : ℝ :=
  if ann_vol pv ≠ 0 then (annual_return pv / 100 - 3 / 100) / (ann_vol pv / 100)
  else 0

/-- Cumulative product with a running accumulator, the tail-recursive form of
`(1 + daily_returns).cumprod()` (code line 78). -/
def cumprod_from (acc : ℚ) : List ℚ → List ℚ
  | [] => []
  | x :: xs => (acc * x) :: cumprod_from (acc * x) xs

/-- The `cumulative_returns` series of `calculate_metrics` line 78. -/
def cum_returns (pv : List ℚ) : List ℚ :=
  cumprod_from 1 ((daily_returns pv).map (fun r => 1 + r))

/-- Drawdown series relative to the running (expanding) maximum `peak`:
`(cumulative_returns - rolling_max) / rolling_max * 100` (code lines 79-80). -/
def dd_from (peak : ℚ) : List ℚ → List ℚ
  | [] => []
  | x :: xs => (x - max peak x) / max peak x * 100 :: dd_from (max peak x) xs

/-- The `drawdowns` series of `calculate_metrics` line 80; the expanding
maximum is seeded with the first cumulative return. -/
def drawdowns (pv : List ℚ) : List ℚ :=
  match cum_returns pv with
  | [] => []
  | c :: cs => dd_from c (c :: cs)

/-- Minimum of a list of rationals, `Series.min()`; the value on the empty
list is irrelevant (the source series is nonempty whenever it is used). -/
def list_min : List ℚ → ℚ
  | [] => 0
  | x :: xs => xs.foldl min x

/-- Maximum drawdown `abs(drawdowns.min())` (code line 81). -/
def max_drawdown (pv : List ℚ) : ℚ := |list_min (drawdowns pv)|

/-- Errors observable from `calculate_metrics`: the bare Python
`ZeroDivisionError` that line 84 can raise, and the `InsufficientData`
failure the specification document prescribes (no such error exists in the
code; the constructor is present so that statements about it can be made). -/
inductive PyError where
  | zeroDivision
  | insufficientData
  deriving DecidableEq

/-- Number of days with a positive daily return,
`len(daily_returns[daily_returns > 0])` (code line 84). -/
def pos_days (pv : List ℚ) : ℕ :=
  ((daily_returns pv).filter (fun r => decide (0 < r))).length

/-- Number of days with a nonzero daily return,
`len(daily_returns[daily_returns != 0])` (code line 84). -/
def nonzero_days (pv : List ℚ) : ℕ :=
  ((daily_returns pv).filter (fun r => decide (r ≠ 0))).length

/-- Win rate of `calculate_metrics` line 84.  Python integer division by a
zero count raises `ZeroDivisionError`, modelled by the error branch. -/
def win_rate (pv : List ℚ) : Except PyError ℚ :=
  if nonzero_days pv = 0 then Except.error PyError.zeroDivision
  else Except.ok ((pos_days pv : ℚ) / (nonzero_days pv : ℚ))

/-! ## Factor analyzer RSI (src/analysis/factor_analysis.py, calculate_factors)

The RSI block divides a rolling mean of gains by a rolling mean of losses with
pandas semantics: division by zero yields a signed infinity (or NaN for 0/0)
instead of raising.  `PVal` models the finite rationals extended with the
IEEE special values that this pipeline can produce. -/

/-- Extended value: a finite rational, positive or negative infinity, or NaN. -/
inductive PVal where
  | fin (q : ℚ)
  | pinf
  | ninf
  | nan
  deriving DecidableEq

/-- Addition on extended values with IEEE conventions. -/
def padd : PVal → PVal → PVal
  | PVal.fin a, PVal.fin b => PVal.fin (a + b)
  | PVal.fin _, PVal.pinf => PVal.pinf
  | PVal.fin _, PVal.ninf => PVal.ninf
  | PVal.pinf, PVal.fin _ => PVal.pinf
  | PVal.ninf, PVal.fin _ => PVal.ninf
  | PVal.pinf, PVal.pinf => PVal.pinf
  | PVal.ninf, PVal.ninf => PVal.ninf
  | PVal.pinf, PVal.ninf => PVal.nan
  | PVal.ninf, PVal.pinf => PVal.nan
  | _, _ => PVal.nan

/-- Subtraction on extended values with IEEE conventions. -/
def psub : PVal → PVal → PVal
  | PVal.fin a, PVal.fin b => PVal.fin (a - b)
  | PVal.fin _, PVal.pinf => PVal.ninf
  | PVal.fin _, PVal.ninf => PVal.pinf
  | PVal.pinf, PVal.fin _ => PVal.pinf
  | PVal.ninf, PVal.fin _ => PVal.ninf
  | PVal.pinf, PVal.ninf => PVal.pinf
  | PVal.ninf, PVal.pinf => PVal.ninf
  | _, _ => PVal.nan

/-- Division on extended values with IEEE conventions: a nonzero finite value
divided by zero gives a signed infinity, `0 / 0` gives NaN, a finite value
divided by an infinity gives `0`, and NaN propagates. -/
def pdiv : PVal → PVal → PVal
  | PVal.fin a, PVal.fin b =>
    if b = 0 then
      if 0 < a then PVal.pinf else if a < 0 then PVal.ninf else PVal.nan
    else PVal.fin (a / b)
  | PVal.fin _, PVal.pinf => PVal.fin 0
  | PVal.fin _, PVal.ninf => PVal.fin 0
  | PVal.pinf, PVal.fin b => if 0 ≤ b then PVal.pinf else PVal.ninf
  | PVal.ninf, PVal.fin b => if 0 ≤ b then PVal.ninf else PVal.pinf
  | _, _ => PVal.nan

/-- Close-to-close difference `close.diff()`: missing (NaN) at index 0. -/
def deltaAt (closes : List ℚ) (i : ℕ) : Option ℚ :=
  if i = 0 then none else some (closes.getD i 0 - closes.getD (i - 1) 0)

/-- Per-bar gain `delta.where(delta > 0, 0)`: the NaN of index 0 fails the
comparison and is replaced by `0`, so the gain series is finite everywhere. -/
def gainAt (closes : List ℚ) (i : ℕ) : ℚ :=
  match deltaAt closes i with
  | some d => if 0 < d then d else 0
  | none => 0

/-- Per-bar loss `(-delta.where(delta < 0, 0))`. -/
def lossAt (closes : List ℚ) (i : ℕ) : ℚ :=
  match deltaAt closes i with
  | some d => if d < 0 then -d else 0
  | none => 0

/-- Rolling 14-bar mean of gains, `gain.rolling(window=14).mean()`: NaN until
the window is full. -/
def avg_gain (closes : List ℚ) (i : ℕ) : PVal :=
  if 13 ≤ i then
    PVal.fin ((((List.range 14).map (fun k => gainAt closes (i - 13 + k))).sum) / 14)
  else PVal.nan

/-- Rolling 14-bar mean of losses, `loss.rolling(window=14).mean()`. -/
def avg_loss (closes : List ℚ) (i : ℕ) : PVal :=
  if 13 ≤ i then
    PVal.fin ((((List.range 14).map (fun k => lossAt closes (i - 13 + k))).sum) / 14)
  else PVal.nan

/-- Relative strength `rs = gain / loss` (code line 90). -/
def rs_val (closes : List ℚ) (i : ℕ) : PVal :=
  pdiv (avg_gain closes i) (avg_loss closes i)

/-- RSI `100 - (100 / (1 + rs))` (code line 91). -/
def rsi (closes : List ℚ) (i : ℕ) : PVal :=
  psub (PVal.fin 100) (pdiv (PVal.fin 100) (padd (PVal.fin 1) (rs_val closes i)))

/-! ## Strategy (src/strategies/macd_histogram_strategy.py) -/

/-- Strategy parameters as declared in `MACDHistogramStrategy.params`. -/
structure Config where
  fastperiod : ℕ
  slowperiod : ℕ
  signalperiod : ℕ
  exit_profit_pct : ℚ
  exit_loss_pct : ℚ
  trend_ema_period : ℕ
  volume_ma_period : ℕ
  macd_threshold : ℚ
  deriving DecidableEq

/-- The default parameter values of `MACDHistogramStrategy.params`. -/
def default_config : Config :=
  { fastperiod := 12
    slowperiod := 26
    signalperiod := 9
    exit_profit_pct := 15 / 100
    exit_loss_pct := 7 / 100
    trend_ema_period := 60
    volume_ma_period := 20
    macd_threshold := 0 }

/-- The `last_operation` marker of the strategy (the buy / sell strings,
initially `None`). -/
inductive Op where
  | buy
  | sell
  deriving DecidableEq

/-- A submitted market order: side and requested size. -/
structure SimOrder where
  side : Op
  size : ℤ
  deriving DecidableEq

/-- Mutable state of the strategy and broker: cash, position size, the
remembered buy price, `last_operation`, and the outstanding order slot
`self.order`. -/
structure StratState where
  cash : ℚ
  position : ℤ
  buy_price : Option ℚ
  last_operation : Option Op
  pending : Option SimOrder
  deriving DecidableEq

/-- Per-bar view of the data and indicator lines that
`should_buy` / `should_sell` / `next` read: the close and volume of the bar, the
current MACD histogram value, the previous histogram value (`none` at the
first bar, where `len(self.macd_hist) > 1` fails), the trend EMA, the volume
moving average, the MACD line, and whether the indicator lookback windows are
satisfied. -/
structure BarCtx where
  ts : ℕ
  close : ℚ
  volume : ℚ
  hist : ℚ
  prev_hist : Option ℚ
  trend : ℚ
  vol_ma : ℚ
  macd_l : ℚ
  ready : Bool
  deriving DecidableEq

/-- Histogram up-cross of `should_buy` lines 69-72: the previous value
defaults to `0` when no previous histogram value exists, and both
comparisons are strict. -/
def macd_cross_up (cfg : Config) (prev_h : Option ℚ) (curr : ℚ) : Bool :=
  decide (prev_h.getD 0 < cfg.macd_threshold) && decide (cfg.macd_threshold < curr)

/-- Histogram down-cross of `should_sell` lines 105-108. -/
def macd_cross_down (cfg : Config) (prev_h : Option ℚ) (curr : ℚ) : Bool :=
  decide (-cfg.macd_threshold < prev_h.getD 0) && decide (curr < -cfg.macd_threshold)

/-- Entry predicate `should_buy` (strategy lines 67-84). -/
def should_buy (cfg : Config) (ctx : BarCtx) (last_op : Option Op) : Bool :=
  macd_cross_up cfg ctx.prev_hist ctx.hist &&
  decide (ctx.trend < ctx.close) &&
  decide (ctx.vol_ma * (6 / 5) < ctx.volume) &&
  decide (0 < ctx.macd_l) &&
  decide (last_op ≠ some Op.buy)

/-- Exit predicate `should_sell` (strategy lines 86-118): no position means
no exit; take-profit and stop-loss fire unconditionally; the histogram
down-cross and the trend-line break are suppressed after a sell. -/
def should_sell (cfg : Config) (ctx : BarCtx) (s : StratState) : Bool :=
  if s.position = 0 then false
  else
    let tp : Bool :=
      match s.buy_price with
      | some bp => decide (cfg.exit_profit_pct ≤ (ctx.close - bp) / bp)
      | none => false
    let sl : Bool :=
      match s.buy_price with
      | some bp => decide (cfg.exit_loss_pct ≤ (bp - ctx.close) / bp)
      | none => false
    if tp || sl then true
    else
      (macd_cross_down cfg ctx.prev_hist ctx.hist || decide (ctx.close < ctx.trend)) &&
      decide (s.last_operation ≠ some Op.sell)

/-- Buy sizing `int(self.broker.getcash() * 0.95 / self.data.close[0])`
(strategy line 126).  Python `int()` truncates toward zero; on the
nonnegative quotients produced by positive cash and close this coincides
with the floor used here. -/
def buy_size (cash close : ℚ) : ℤ := Int.floor (cash * (19 / 20) / close)

/-- One invocation of `MACDHistogramStrategy.next` (lines 120-135): return
early on a pending order; with no position, a firing entry submits a buy
order sized from current cash and sets `last_operation` to buy; with a
position, a firing exit submits a sell of the full position size and sets
sets `last_operation` to sell.  During the indicator warmup backtrader does not
invoke `next`, modelled by the `ready` guard. -/
def strat_next (cfg : Config) (ctx : BarCtx) (s : StratState) : StratState :=
  if ctx.ready then
    if s.pending.isSome then s
    else if s.position = 0 then
      if should_buy cfg ctx s.last_operation then
        { s with pending := some ⟨Op.buy, buy_size s.cash ctx.close⟩
                 last_operation := some Op.buy }
      else s
    else
      if should_sell cfg ctx s then
        { s with pending := some ⟨Op.sell, s.position⟩
                 last_operation := some Op.sell }
      else s
  else s

/-- Modelled from the spec: the order resolution of the broker is backtrader
library code, not part of the repository sources; the synchronous fill model of the specification (section 4.3 and 4.4) fills a feasible order at the close of the bar with no commission (the engine configures none), and an
infeasible order (nonpositive size, or cost exceeding cash) is rejected,
which `notify_order` (strategy lines 41-55) observes as
Canceled/Margin/Rejected and answers by clearing `self.order` so the loop
proceeds. -/
def resolve_order (close : ℚ) (s : StratState) : StratState :=
  match s.pending with
  | none => s
  | some o =>
    match o.side with
    | Op.buy =>
      if o.size ≤ 0 ∨ s.cash < o.size * close then { s with pending := none }
      else
        { s with cash := s.cash - o.size * close
                 position := s.position + o.size
                 buy_price := some close
                 pending := none }
    | Op.sell =>
      { s with cash := s.cash + o.size * close
               position := s.position - o.size
               pending := none }

/-- One full bar of the simulation: strategy `next`, then order resolution. -/
def step_bar (cfg : Config) (ctx : BarCtx) (s : StratState) : StratState :=
  resolve_order ctx.close (strat_next cfg ctx s)

/-! ## Backtest engine (src/backtest/backtest_engine.py) -/

/-- One OHLCV bar reduced to the fields the strategy reads: timestamp,
close, volume. -/
structure Bar where
  ts : ℕ
  close : ℚ
  volume : ℚ
  deriving DecidableEq

/-- Placeholder bar for out-of-range list access. -/
def defBar : Bar := ⟨0, 0, 0⟩

/-- Close price of the bar at index `i`. -/
def closeAt (bars : List Bar) (i : ℕ) : ℚ := (bars.getD i defBar).close

/-- Volume of the bar at index `i`. -/
def volumeAt (bars : List Bar) (i : ℕ) : ℚ := (bars.getD i defBar).volume

/-- Modelled from the spec: the EMA indicator is backtrader library code;
section 4.1 gives the industry-standard recursion
`EMA_t = value_t * a + EMA_(t-1) * (1 - a)` with `a = 2 / (period + 1)`,
seeded by the first value. -/
def ema_rec (p : ℕ) (f : ℕ → ℚ) : ℕ → ℚ
  | 0 => f 0
  | i + 1 =>
    f (i + 1) * (2 / (p + 1)) + ema_rec p f i * (1 - 2 / (p + 1))

/-- MACD line: fast EMA minus slow EMA of the closes (strategy lines 18-23). -/
def macd_line (cfg : Config) (bars : List Bar) (i : ℕ) : ℚ :=
  ema_rec cfg.fastperiod (closeAt bars) i - ema_rec cfg.slowperiod (closeAt bars) i

/-- MACD signal line: EMA of the MACD line. -/
def signal_line (cfg : Config) (bars : List Bar) (i : ℕ) : ℚ :=
  ema_rec cfg.signalperiod (macd_line cfg bars) i

/-- MACD histogram `self.macd.macd - self.macd.signal` (strategy line 26). -/
def macd_hist (cfg : Config) (bars : List Bar) (i : ℕ) : ℚ :=
  macd_line cfg bars i - signal_line cfg bars i

/-- Trend EMA of the closes (strategy line 29). -/
def trend_ema (cfg : Config) (bars : List Bar) (i : ℕ) : ℚ :=
  ema_rec cfg.trend_ema_period (closeAt bars) i

/-- Simple moving average of the volume over the configured window
(strategy line 32); `0` during the warmup, where the strategy never reads
it. -/
def volume_ma (cfg : Config) (bars : List Bar) (i : ℕ) : ℚ :=
  if cfg.volume_ma_period ≤ i + 1 then
    (((bars.map Bar.volume).take (i + 1)).drop (i + 1 - cfg.volume_ma_period)).sum /
      (cfg.volume_ma_period : ℚ)
  else 0

/-- Modelled from the spec: the number of warmup bars is determined by
the minimum-period bookkeeping of backtrader; section 4.4 only requires that the
rule set is skipped until every indicator lookback window is satisfied. -/
def warmup (cfg : Config) : ℕ :=
  max (cfg.slowperiod + cfg.signalperiod) (max cfg.trend_ema_period cfg.volume_ma_period)

/-- Whether the indicator lookback windows are satisfied at bar `i`. -/
def readyAt (cfg : Config) (i : ℕ) : Bool := decide (warmup cfg ≤ i + 1)

/-- The per-bar context assembled from the raw bars and indicator lines. -/
def ctxAt (cfg : Config) (bars : List Bar) (i : ℕ) : BarCtx :=
  { ts := (bars.getD i defBar).ts
    close := closeAt bars i
    volume := volumeAt bars i
    hist := macd_hist cfg bars i
    prev_hist := if i = 0 then none else some (macd_hist cfg bars (i - 1))
    trend := trend_ema cfg bars i
    vol_ma := volume_ma cfg bars i
    macd_l := macd_line cfg bars i
    ready := readyAt cfg i }

/-- Modelled from the spec: the bar-by-bar driver is the backtrader
`Cerebro.run` method; section 4.4 prescribes one strictly sequential pass that
steps the strategy on each bar and then appends one equity point
`(timestamp, cash + position * close)` per bar, which is what the
`ValueAnalyzer` of `BacktestEngine.run` (lines 46-62) records. -/
def sim_go (cfg : Config) (bars : List Bar) : List ℕ → StratState → List (ℕ × ℚ)
  | [], _ => []
  | i :: is, s =>
    let s2 := step_bar cfg (ctxAt cfg bars i) s
    ((bars.getD i defBar).ts, s2.cash + s2.position * closeAt bars i) ::
      sim_go cfg bars is s2

/-- Initial state: configured starting capital, no position, no pending
order. -/
def init_state (cash : ℚ) : StratState := ⟨cash, 0, none, none, none⟩

/-- The recorded equity-point sequence of a full backtest run. -/
def simulate (cfg : Config) (bars : List Bar) (cash : ℚ) : List (ℕ × ℚ) :=
  sim_go cfg bars (List.range bars.length) (init_state cash)

/-- Fatal errors the run pipeline of the specification can report.  The code
declares none of them; the constructors exist so that statements about the
documented taxonomy can be made. -/
inductive RunError where
  | invalidConfig
  | dataError
  deriving DecidableEq

/-- The combined `BacktestEngine.add_strategy` + `BacktestEngine.run` code
path (engine lines 32-34 and 36-64): the strategy and its parameters are
registered without any validation and the simulation always executes, so
the error channel carries no value on any input. -/
def add_strategy_and_run (cfg : Config) (bars : List Bar) (cash : ℚ) :
    Except RunError (List (ℕ × ℚ)) :=
  Except.ok (simulate cfg bars cash)

/-! ## Specification-side rule definitions used by refinement claims -/

/-- The Entry rule exactly as the specification words it (section 4.2):
histogram crosses above the threshold with the previous value at most the
threshold, close above the trend EMA, volume above 1.2 times its rolling
average, MACD line above zero, and entry suppressed after a buy. -/
def spec_entry_rule (cfg : Config) (prev curr close trend vol vol_ma macd_l : ℚ)
    (last_op : Option Op) : Prop :=
  prev ≤ cfg.macd_threshold ∧ cfg.macd_threshold < curr ∧ trend < close ∧
    vol_ma * (6 / 5) < vol ∧ 0 < macd_l ∧ last_op ≠ some Op.buy

/-- The Entry rule with the cross condition amended to the strict comparison
the code actually performs (`prev_hist < macd_threshold`). -/
def entry_rule_strict (cfg : Config) (prev curr close trend vol vol_ma macd_l : ℚ)
    (last_op : Option Op) : Prop :=
  prev < cfg.macd_threshold ∧ cfg.macd_threshold < curr ∧ trend < close ∧
    vol_ma * (6 / 5) < vol ∧ 0 < macd_l ∧ last_op ≠ some Op.buy

/-! ## General lemmas -/

/-- The pct-change tail preserves length. -/
theorem returns_from_length (prev : ℚ) (l : List ℚ) :
    (returns_from prev l).length = l.length := by
  induction l generalizing prev with
  | nil => rfl
  | cons x xs ih => simp [returns_from, ih]

/-- A list whose elements are pairwise equal has sample variance zero. -/
theorem sample_var_of_all_eq {l : List ℚ} (h : ∀ x ∈ l, ∀ y ∈ l, x = y) :
    sample_var l = 0 := by
  cases l with
  | nil => simp [sample_var, qmean]
  | cons a t =>
    have hall : ∀ x ∈ a :: t, x = a := fun x hx => h x hx a (by simp)
    have hmean : qmean (a :: t) = a := by
      have hsum : (a :: t).sum = (a :: t).length • a := List.sum_eq_card_nsmul _ _ hall
      have hlen : (((a :: t).length : ℕ) : ℚ) ≠ 0 := Nat.cast_ne_zero.mpr (by simp)
      rw [qmean, hsum, nsmul_eq_mul]
      field_simp
    have hzero : (a :: t).map (fun x => (x - qmean (a :: t)) ^ 2) =
        (a :: t).map (fun _ => 0) := by
      apply List.map_congr_left
      intro x hx
      rw [hmean, hall x hx]
      ring
    rw [sample_var, hzero]
    simp

/-- A list of all-zero elements contributes no nonzero-filtered entries. -/
theorem filter_ne_zero_nil {l : List ℚ} (h : ∀ x ∈ l, x = 0) :
    (l.filter (fun r => decide (r ≠ 0))).length = 0 := by
  induction l with
  | nil => rfl
  | cons a t ih =>
    have ha : a = 0 := h a (by simp)
    rw [List.filter_cons]
    subst ha
    norm_num
    exact fun x hx => h x (by simp [hx])

/-! ## Claim theorems -/

/-- C10: for every portfolio-value series of length at least one,
`calculate_metrics` fills the undefined return of the first bar with exactly `0`,
keeps one return sample per bar (so the zero enters the volatility sample),
and both win-rate counts range only over the remaining returns (the filled
zero is neither positive nor nonzero). -/
theorem first_return_filled_zero (v : ℚ) (rest : List ℚ) :
    (daily_returns (v :: rest)).headD 1 = 0 ∧
    (daily_returns (v :: rest)).length = (v :: rest).length ∧
    pos_days (v :: rest) =
      (((daily_returns (v :: rest)).tail).filter (fun r => decide (0 < r))).length ∧
    nonzero_days (v :: rest) =
      (((daily_returns (v :: rest)).tail).filter (fun r => decide (r ≠ 0))).length := by
  refine ⟨rfl, ?_, ?_, ?_⟩
  · simp [daily_returns, returns_from_length]
  · rw [pos_days, daily_returns, List.filter_cons]
    norm_num
  · rw [nonzero_days, daily_returns, List.filter_cons]
    norm_num

/-- C3: on a portfolio-value series of length at least two whose computed
daily-return series is constant, the sample variance is exactly zero, the
annualized volatility is exactly zero, and the guard in `calculate_metrics`
returns a Sharpe ratio of exactly `0` instead of dividing by zero. -/
theorem sharpe_zero_of_constant_returns (pv : List ℚ) (hlen : 2 ≤ pv.length)
    (h : ∀ x ∈ daily_returns pv, ∀ y ∈ daily_returns pv, x = y) :
    sharpe pv = 0 := by
  have hvar : sample_var (daily_returns pv) = 0 := sample_var_of_all_eq h
  have hvol : ann_vol pv = 0 := by
    rw [ann_vol, hvar]
    simp
  rw [sharpe, if_neg (by simp [hvol])]

/-- C3 witness: the flat series `[100, 100, 100]` has constant daily returns
and Sharpe ratio exactly `0`. -/
theorem sharpe_zero_of_constant_returns_witness : sharpe [100, 100, 100] = 0 :=
  sharpe_zero_of_constant_returns [100, 100, 100] (by norm_num)
    (by norm_num [daily_returns, returns_from])

/-- C6 counterexample: on the flat series `[100, 100, 100]` every daily
return is zero and `calculate_metrics` line 84 raises a bare Python
`ZeroDivisionError`; it does not fail with the `InsufficientData` error the
claim prescribes (no such error exists in the code). -/
theorem win_rate_flat_counterexample :
    win_rate [100, 100, 100] = Except.error PyError.zeroDivision ∧
    (Except.error PyError.zeroDivision : Except PyError ℚ) ≠
      Except.error PyError.insufficientData := by
  constructor
  · norm_num [win_rate, nonzero_days, daily_returns, returns_from]
  · simp

/-- C6 amended: win rate is the number of positive-return days divided by
the number of nonzero-return days, and when every daily return is zero the
computation fails with an unhandled division-by-zero error (not with
`InsufficientData`, which the code never raises). -/
theorem win_rate_formula_and_flat_failure (pv : List ℚ) :
    ((∀ x ∈ daily_returns pv, x = 0) →
      win_rate pv = Except.error PyError.zeroDivision) ∧
    ((∃ x ∈ daily_returns pv, x ≠ 0) →
      win_rate pv = Except.ok ((pos_days pv : ℚ) / (nonzero_days pv : ℚ))) := by
  constructor
  · intro h
    rw [win_rate, if_pos]
    rw [nonzero_days]
    exact filter_ne_zero_nil h
  · rintro ⟨x, hx, hxne⟩
    have hmem : x ∈ (daily_returns pv).filter (fun r => decide (r ≠ 0)) :=
      List.mem_filter.mpr ⟨hx, by simp [hxne]⟩
    have hnz : nonzero_days pv ≠ 0 := by
      rw [nonzero_days]
      intro hlen
      rw [List.length_eq_zero] at hlen
      rw [hlen] at hmem
      exact (List.not_mem_nil x) hmem
    rw [win_rate, if_neg hnz]

/-- C6 witness: the flat series raises the division-by-zero error and the
series `[100, 120]` produces the positive-over-nonzero quotient. -/
theorem win_rate_formula_and_flat_failure_witness :
    win_rate [100, 100] = Except.error PyError.zeroDivision ∧
    win_rate [100, 120] =
      Except.ok ((pos_days [100, 120] : ℚ) / (nonzero_days [100, 120] : ℚ)) := by
  constructor
  · exact (win_rate_formula_and_flat_failure [100, 100]).1
      (by norm_num [daily_returns, returns_from])
  · exact (win_rate_formula_and_flat_failure [100, 120]).2
      ⟨1 / 5, by norm_num [daily_returns, returns_from], by norm_num⟩

/-- Fifteen strictly rising closes: the 14-bar rolling average loss vanishes
while the average gain does not. -/
def closes_up : List ℚ := [1, 2, 3, 4, 5, 6, 7, 8, 9, 10, 11, 12, 13, 14, 15]

/-- Fifteen flat closes: both rolling averages vanish. -/
def closes_flat : List ℚ := [5, 5, 5, 5, 5, 5, 5, 5, 5, 5, 5, 5, 5, 5, 5]

/-- C9 counterexample: at bar 13 of a strictly rising series the rolling
average loss is exactly zero, yet the RSI is the ordinary number `100`
rather than an undefined value — pandas turns the positive-gain-over-zero
division into `+inf`, and `100 - 100 / (1 + inf)` collapses to `100`. -/
theorem rsi_zero_loss_counterexample :
    avg_loss closes_up 13 = PVal.fin 0 ∧ rsi closes_up 13 = PVal.fin 100 ∧
      PVal.fin 100 ≠ PVal.nan := by
  refine ⟨?_, ?_, by simp⟩
  · norm_num [avg_loss, lossAt, deltaAt, closes_up, List.range_succ]
  · norm_num [rsi, rs_val, avg_gain, avg_loss, gainAt, lossAt, deltaAt, pdiv,
      padd, psub, closes_up, List.range_succ]

/-- C9 amended: when the rolling average loss is zero the RSI is NaN only in
the 0/0 case (average gain also zero); with a positive average gain the
division produces `+inf` and the RSI evaluates to the ordinary number `100`.
In both cases the division-by-zero propagates as a value and never raises. -/
theorem rsi_zero_loss_amended (closes : List ℚ) (i : ℕ) :
    (avg_gain closes i = PVal.fin 0 → avg_loss closes i = PVal.fin 0 →
      rsi closes i = PVal.nan) ∧
    (∀ g : ℚ, avg_gain closes i = PVal.fin g → 0 < g →
      avg_loss closes i = PVal.fin 0 → rsi closes i = PVal.fin 100) := by
  constructor
  · intro hg hl
    rw [rsi, rs_val, hg, hl]
    norm_num [pdiv, padd, psub]
  · intro g hg hgpos hl
    rw [rsi, rs_val, hg, hl]
    norm_num [pdiv, padd, psub, hgpos]

/-- C9 witness: the flat series yields NaN at bar 13, the rising series
yields 100. -/
theorem rsi_zero_loss_amended_witness :
    rsi closes_flat 13 = PVal.nan ∧ rsi closes_up 13 = PVal.fin 100 := by
  constructor
  · exact (rsi_zero_loss_amended closes_flat 13).1
      (by norm_num [avg_gain, gainAt, deltaAt, closes_flat, List.range_succ])
      (by norm_num [avg_loss, lossAt, deltaAt, closes_flat, List.range_succ])
  · exact (rsi_zero_loss_amended closes_up 13).2 (13 / 14)
      (by norm_num [avg_gain, gainAt, deltaAt, closes_up, List.range_succ])
      (by norm_num)
      (by norm_num [avg_loss, lossAt, deltaAt, closes_up, List.range_succ])

/-- Default parameters with the MACD threshold raised to `1`. -/
def cfg_t1 : Config := { default_config with macd_threshold := 1 }

/-- First-bar context with histogram `2`, no previous histogram value, and
every non-cross entry condition satisfied. -/
def ctx_first_bar : BarCtx :=
  { ts := 0, close := 110, volume := 200, hist := 2, prev_hist := none,
    trend := 100, vol_ma := 100, macd_l := 1, ready := true }

/-- C5 counterexample: with a positive threshold (`1`) the code substitutes
`0` — not the threshold — for the missing previous histogram value, so a
cross is detected at the first bar and `should_buy` fires there, while
treating the previous value as the threshold itself would detect no cross. -/
theorem first_bar_cross_counterexample :
    ctx_first_bar.prev_hist = none ∧
    should_buy cfg_t1 ctx_first_bar none = true ∧
    macd_cross_up cfg_t1 (some cfg_t1.macd_threshold) ctx_first_bar.hist = false := by
  refine ⟨rfl, ?_, ?_⟩
  · norm_num [should_buy, macd_cross_up, cfg_t1, default_config, ctx_first_bar]
    simp
  · norm_num [macd_cross_up, cfg_t1, default_config, ctx_first_bar]

/-- C5 amended: at the first bar the missing previous histogram value is
treated as `0`, so with the default threshold `0.0` neither an up-cross nor
a down-cross can be detected there; a nonzero threshold can produce a
first-bar cross. -/
theorem first_bar_cross_amended (cfg : Config) (curr : ℚ)
    (h : cfg.macd_threshold = 0) :
    macd_cross_up cfg none curr = macd_cross_up cfg (some 0) curr ∧
    macd_cross_down cfg none curr = macd_cross_down cfg (some 0) curr ∧
    macd_cross_up cfg none curr = false ∧
    macd_cross_down cfg none curr = false := by
  refine ⟨rfl, rfl, ?_, ?_⟩
  · norm_num [macd_cross_up, h]
  · norm_num [macd_cross_down, h]

/-- C5 witness: with the default configuration no first-bar cross fires. -/
theorem first_bar_cross_amended_witness :
    macd_cross_up default_config none 5 = false ∧
    macd_cross_down default_config none 5 = false :=
  ⟨(first_bar_cross_amended default_config 5 rfl).2.2.1,
    (first_bar_cross_amended default_config 5 rfl).2.2.2⟩

/-- Entry context whose previous histogram value equals the threshold
exactly, with every other entry condition satisfied. -/
def ctx_at_threshold : BarCtx :=
  { ts := 0, close := 110, volume := 200, hist := 1, prev_hist := some 0,
    trend := 100, vol_ma := 100, macd_l := 1, ready := true }

/-- C1 counterexample: with the previous histogram value exactly at the
threshold the entry predicate of the specification (previous at most the
threshold) holds, but `should_buy` compares strictly
(`prev_hist < macd_threshold`) and does not fire. -/
theorem entry_rule_counterexample :
    ctx_at_threshold.prev_hist = some 0 ∧
    spec_entry_rule default_config 0 1 110 100 200 100 1 none ∧
    should_buy default_config ctx_at_threshold none = false := by
  refine ⟨rfl, ?_, ?_⟩
  · norm_num [spec_entry_rule, default_config]
    simp
  · norm_num [should_buy, macd_cross_up, default_config, ctx_at_threshold]

/-- C1 amended: whenever a previous histogram value exists, `should_buy`
fires exactly when the previous value is strictly below the threshold, the
current value is strictly above it, the close is above the trend EMA, the
volume exceeds 1.2 times its rolling average, the MACD line is above zero,
and the last operation is not a buy. -/
theorem should_buy_strict_characterization (cfg : Config) (ctx : BarCtx)
    (last_op : Option Op) (p : ℚ) (h : ctx.prev_hist = some p) :
    should_buy cfg ctx last_op = true ↔
      entry_rule_strict cfg p ctx.hist ctx.close ctx.trend ctx.volume ctx.vol_ma
        ctx.macd_l last_op := by
  simp [should_buy, macd_cross_up, entry_rule_strict, h, and_assoc]

/-- C1 witness: a context one tick below the threshold satisfies both sides
of the characterization. -/
theorem should_buy_strict_characterization_witness :
    should_buy default_config
        { ts := 0, close := 110, volume := 200, hist := 1, prev_hist := some (-1),
          trend := 100, vol_ma := 100, macd_l := 1, ready := true } none = true ↔
      entry_rule_strict default_config (-1) 1 110 100 200 100 1 none :=
  should_buy_strict_characterization default_config
    { ts := 0, close := 110, volume := 200, hist := 1, prev_hist := some (-1),
      trend := 100, vol_ma := 100, macd_l := 1, ready := true } none (-1) rfl

/-- Entry context in which the buy signal fires. -/
def ctx_lowcash : BarCtx :=
  { ts := 0, close := 100, volume := 200, hist := 1, prev_hist := some (-1),
    trend := 90, vol_ma := 100, macd_l := 1, ready := true }

/-- State with too little cash for a single share at close `100`. -/
def st_lowcash : StratState :=
  { cash := 50, position := 0, buy_price := none, last_operation := none,
    pending := none }

/-- C4 counterexample: with cash `50` and close `100` the computed buy size
is `0`, yet processing the bar is not state-preserving — `next` sets
`last_operation` to buy before the order is resolved, so the claimed
atomicity (cash, position and `last_operation` unchanged) fails. -/
theorem insufficient_funds_counterexample :
    buy_size st_lowcash.cash ctx_lowcash.close ≤ 0 ∧
    should_buy default_config ctx_lowcash st_lowcash.last_operation = true ∧
    (step_bar default_config ctx_lowcash st_lowcash).last_operation ≠
      st_lowcash.last_operation := by
  refine ⟨?_, ?_, ?_⟩
  · norm_num [buy_size, st_lowcash, ctx_lowcash]
  · norm_num [should_buy, macd_cross_up, default_config, ctx_lowcash, st_lowcash]
    simp
  · simp [step_bar, strat_next, resolve_order, should_buy, macd_cross_up,
      default_config, buy_size, ctx_lowcash, st_lowcash]
    norm_num
    simp

/-- C4 amended: when the entry signal fires with a computed buy size of at
most `0`, the broker rejects the order and clears it, cash and position are
unchanged and the loop proceeds, but — contrary to the claimed atomicity —
`last_operation` is set to buy; no `InsufficientFunds` error exists.  A
sell with zero position cannot be requested at all: `should_sell` is false
whenever the position is zero, so no `NoPosition` error can arise. -/
theorem insufficient_funds_amended (cfg : Config) (ctx : BarCtx) (s : StratState)
    (hr : ctx.ready = true) (hp : s.pending = none) (hpos : s.position = 0)
    (hb : should_buy cfg ctx s.last_operation = true)
    (hsz : buy_size s.cash ctx.close ≤ 0) :
    step_bar cfg ctx s = { s with last_operation := some Op.buy } ∧
    should_sell cfg ctx s = false := by
  constructor
  · have h1 : strat_next cfg ctx s =
        { s with pending := some ⟨Op.buy, buy_size s.cash ctx.close⟩,
                 last_operation := some Op.buy } := by
      rw [strat_next, if_pos hr, hp]
      simp [hpos, hb]
    rw [step_bar, h1, resolve_order]
    simp only []
    rw [if_pos (Or.inl hsz)]
    cases s
    simp_all
  · rw [should_sell, if_pos hpos]

/-- C4 witness: the concrete low-cash state is mapped to itself except for
`last_operation`, and no sell can be requested from it. -/
theorem insufficient_funds_amended_witness :
    step_bar default_config ctx_lowcash st_lowcash =
      { st_lowcash with last_operation := some Op.buy } ∧
    should_sell default_config ctx_lowcash st_lowcash = false :=
  insufficient_funds_amended default_config ctx_lowcash st_lowcash rfl rfl rfl
    (by norm_num [should_buy, macd_cross_up, default_config, ctx_lowcash, st_lowcash]
        simp)
    (by norm_num [buy_size, st_lowcash, ctx_lowcash])

/-- One simulated equity point is produced per driven bar index. -/
theorem sim_go_length (cfg : Config) (bars : List Bar) :
    ∀ (l : List ℕ) (s : StratState), (sim_go cfg bars l s).length = l.length := by
  intro l
  induction l with
  | nil => intro s; rfl
  | cons i is ih => intro s; simp [sim_go, ih]

/-- The timestamps of the simulated equity points are the timestamps of the
driven bars, independent of the evolving strategy state. -/
theorem sim_go_fst (cfg : Config) (bars : List Bar) :
    ∀ (l : List ℕ) (s : StratState),
      (sim_go cfg bars l s).map Prod.fst = l.map (fun i => (bars.getD i defBar).ts) := by
  intro l
  induction l with
  | nil => intro s; rfl
  | cons i is ih => intro s; simp [sim_go, ih]

/-- Reading every timestamp by index recovers the mapped timestamp list. -/
theorem range_map_ts (bars : List Bar) :
    (List.range bars.length).map (fun i => (bars.getD i defBar).ts) =
      bars.map Bar.ts := by
  apply List.ext_getElem
  · simp
  · intro i h1 h2
    simp only [List.getElem_map, List.getElem_range]
    rw [List.getD_eq_getElem]

/-- C2: for every configuration and bar sequence whose timestamps are
non-decreasing, the recorded equity-point sequence has exactly one point per
bar and its timestamps are non-decreasing. -/
theorem equity_points_length_monotone (cfg : Config) (bars : List Bar) (cash : ℚ)
    (h : List.Chain' (· ≤ ·) (bars.map Bar.ts)) :
    (simulate cfg bars cash).length = bars.length ∧
    List.Chain' (· ≤ ·) ((simulate cfg bars cash).map Prod.fst) := by
  constructor
  · rw [simulate, sim_go_length, List.length_range]
  · rw [simulate, sim_go_fst, range_map_ts]
    exact h

/-- C2 witness: a two-bar run yields two equity points with ordered
timestamps. -/
theorem equity_points_length_monotone_witness :
    (simulate default_config [⟨1, 100, 10⟩, ⟨2, 101, 11⟩] 100000).length = 2 ∧
    List.Chain' (· ≤ ·)
      ((simulate default_config [⟨1, 100, 10⟩, ⟨2, 101, 11⟩] 100000).map Prod.fst) :=
  equity_points_length_monotone default_config [⟨1, 100, 10⟩, ⟨2, 101, 11⟩] 100000
    (by simp [List.chain'_cons])

/-- Configuration with the fast and slow periods swapped, violating the
documented `fast_period < slow_period` requirement. -/
def cfg_swapped : Config := { default_config with fastperiod := 26, slowperiod := 12 }

/-- C8 counterexample: the swapped configuration violates
`fast_period < slow_period`, yet `add_strategy` performs no validation —
the run executes the simulation and returns an equity point instead of
failing with `InvalidConfig`. -/
theorem invalid_config_counterexample :
    ¬ cfg_swapped.fastperiod < cfg_swapped.slowperiod ∧
    add_strategy_and_run cfg_swapped [⟨0, 100, 1000⟩] 100000 =
      Except.ok [(0, 100000)] ∧
    add_strategy_and_run cfg_swapped [⟨0, 100, 1000⟩] 100000 ≠
      Except.error RunError.invalidConfig := by
  refine ⟨by norm_num [cfg_swapped, default_config], ?_, ?_⟩
  · norm_num [add_strategy_and_run, simulate, sim_go, step_bar, strat_next,
      resolve_order, ctxAt, readyAt, warmup, cfg_swapped, default_config,
      init_state, closeAt, defBar, List.range_succ]
  · rw [add_strategy_and_run]
    simp

/-- C8 amended: no configuration validation exists; for every parameter
combination (valid or not) the strategy is registered, the simulation
executes with one equity point per bar, and no `InvalidConfig` error is ever
produced. -/
theorem add_strategy_no_validation (cfg : Config) (bars : List Bar) (cash : ℚ) :
    ∃ pts, add_strategy_and_run cfg bars cash = Except.ok pts ∧
      pts.length = bars.length := by
  refine ⟨simulate cfg bars cash, rfl, ?_⟩
  rw [simulate, sim_go_length, List.length_range]

/-- A left fold by `min` never exceeds its initial accumulator. -/
theorem foldl_min_le_init : ∀ (xs : List ℚ) (a : ℚ), xs.foldl min a ≤ a := by
  intro xs
  induction xs with
  | nil => intro a; simp
  | cons x t ih =>
    intro a
    rw [List.foldl_cons]
    exact le_trans (ih (min a x)) (min_le_left a x)

/-- A left fold by `min` never exceeds any list member. -/
theorem foldl_min_le_mem : ∀ (xs : List ℚ) (a x : ℚ), x ∈ xs → xs.foldl min a ≤ x := by
  intro xs
  induction xs with
  | nil => intro a x hx; simp at hx
  | cons y t ih =>
    intro a x hx
    rw [List.foldl_cons]
    rcases List.mem_cons.mp hx with h | h
    · subst h
      exact le_trans (foldl_min_le_init t (min a x)) (min_le_right a x)
    · exact ih (min a y) x h

/-- A common lower bound of the accumulator and all members bounds the fold. -/
theorem le_foldl_min : ∀ (xs : List ℚ) (a b : ℚ), b ≤ a → (∀ x ∈ xs, b ≤ x) →
    b ≤ xs.foldl min a := by
  intro xs
  induction xs with
  | nil => intro a b hba _; simpa using hba
  | cons y t ih =>
    intro a b hba h
    rw [List.foldl_cons]
    exact ih (min a y) b (le_min hba (h y (by simp))) (fun x hx => h x (by simp [hx]))

/-- Every drawdown over a positive series from a positive running peak lies
in the interval from `-100` to `0`. -/
theorem dd_from_bounds : ∀ (l : List ℚ) (peak : ℚ), 0 < peak → (∀ x ∈ l, 0 < x) →
    ∀ d ∈ dd_from peak l, -100 ≤ d ∧ d ≤ 0 := by
  intro l
  induction l with
  | nil => intro peak _ _ d hd; simp [dd_from] at hd
  | cons x xs ih =>
    intro peak hpeak hpos d hd
    have hm : 0 < max peak x := lt_of_lt_of_le hpeak (le_max_left _ _)
    have hx : 0 < x := hpos x (by simp)
    rw [dd_from] at hd
    rcases List.mem_cons.mp hd with h | h
    · subst h
      constructor
      · have h3 : (-1 : ℚ) ≤ (x - max peak x) / max peak x := by
          rw [le_div_iff₀ hm]
          linarith
        have := mul_le_mul_of_nonneg_right h3 (by norm_num : (0:ℚ) ≤ 100)
        linarith
      · have h4 : (x - max peak x) / max peak x ≤ 0 := by
          rw [div_le_iff₀ hm]
          have := le_max_right peak x
          linarith
        have := mul_le_mul_of_nonneg_right h4 (by norm_num : (0:ℚ) ≤ 100)
        linarith
    · exact ih (max peak x) hm (fun y hy => hpos y (by simp [hy])) d h

/-- The drawdown series over a positive list vanishes everywhere exactly
when the list ascends from the initial peak. -/
theorem dd_from_zero_iff : ∀ (l : List ℚ) (peak : ℚ), 0 < peak → (∀ x ∈ l, 0 < x) →
    ((∀ d ∈ dd_from peak l, d = 0) ↔ List.Chain (· ≤ ·) peak l) := by
  intro l
  induction l with
  | nil =>
    intro peak _ _
    constructor
    · intro _; exact List.Chain.nil
    · intro _ d hd; simp [dd_from] at hd
  | cons x xs ih =>
    intro peak hpeak hpos
    have hm : 0 < max peak x := lt_of_lt_of_le hpeak (le_max_left _ _)
    have hx : 0 < x := hpos x (by simp)
    have hxs : ∀ y ∈ xs, 0 < y := fun y hy => hpos y (by simp [hy])
    constructor
    · intro h
      have h0 : (x - max peak x) / max peak x * 100 = 0 :=
        h _ (by rw [dd_from]; exact List.mem_cons_self _ _)
      have hx_eq : x = max peak x := by
        rcases mul_eq_zero.mp h0 with h1 | h1
        · rcases div_eq_zero_iff.mp h1 with h2 | h2
          · linarith
          · exact absurd h2 (ne_of_gt hm)
        · norm_num at h1
      have hpx : peak ≤ x := max_eq_right_iff.mp hx_eq.symm
      rw [List.chain_cons]
      refine ⟨hpx, ?_⟩
      have hmax : max peak x = x := max_eq_right hpx
      refine (ih x hx hxs).mp ?_
      intro d hd
      apply h
      rw [dd_from, hmax]
      exact List.mem_cons_of_mem _ hd
    · intro h
      rw [List.chain_cons] at h
      obtain ⟨hpx, hchain⟩ := h
      have hmax : max peak x = x := max_eq_right hpx
      intro d hd
      rw [dd_from, hmax] at hd
      rcases List.mem_cons.mp hd with h | h
      · subst h; simp
      · exact (ih x hx hxs).mpr hchain d h

/-- The cumulative product of one plus each pct-change return telescopes to
the ratio against the running base. -/
theorem cumprod_from_returns :
    ∀ (l : List ℚ) (prev acc : ℚ), prev ≠ 0 → (∀ x ∈ l, x ≠ 0) →
      cumprod_from acc ((returns_from prev l).map (fun r => 1 + r)) =
        l.map (fun x => acc * x / prev) := by
  intro l
  induction l with
  | nil => intro prev acc _ _; rfl
  | cons x xs ih =>
    intro prev acc hprev hxs
    have hx : x ≠ 0 := hxs x (by simp)
    rw [returns_from, List.map_cons, cumprod_from]
    rw [show (1 + (x / prev - 1)) = x / prev by ring]
    rw [ih x (acc * (x / prev)) hx (fun y hy => hxs y (by simp [hy]))]
    rw [List.map_cons]
    congr 1
    · rw [mul_div_assoc]
    · apply List.map_congr_left
      intro y _
      field_simp
      ring

/-- On a series of nonzero values the cumulative-return series of
`calculate_metrics` is the value series rescaled by its first element. -/
theorem cum_returns_eq (v : ℚ) (rest : List ℚ) (hv : v ≠ 0)
    (hrest : ∀ x ∈ rest, x ≠ 0) :
    cum_returns (v :: rest) = (v :: rest).map (fun x => x / v) := by
  rw [cum_returns, daily_returns, List.map_cons, cumprod_from]
  rw [show (1 : ℚ) + 0 = 1 by norm_num, mul_one]
  rw [cumprod_from_returns rest v 1 hv hrest]
  rw [List.map_cons]
  congr 1
  · rw [div_self hv]
  · apply List.map_congr_left
    intro y _
    rw [one_mul]

/-- C7: on every nonempty positive portfolio-value series the computed
maximum drawdown is between `0` and `100` percent, reported as a positive
magnitude, and it is `0` exactly when the series never declines. -/
theorem max_drawdown_spec (pv : List ℚ) (hne : pv ≠ []) (hpos : ∀ v ∈ pv, 0 < v) :
    0 ≤ max_drawdown pv ∧ max_drawdown pv ≤ 100 ∧
      (max_drawdown pv = 0 ↔ List.Chain' (· ≤ ·) pv) := by
  obtain ⟨v, rest, rfl⟩ := List.exists_cons_of_ne_nil hne
  have hv : 0 < v := hpos v (by simp)
  have hC : cum_returns (v :: rest) = (v / v) :: rest.map (fun x => x / v) := by
    rw [cum_returns_eq v rest (ne_of_gt hv)
      (fun x hx => ne_of_gt (hpos x (by simp [hx]))), List.map_cons]
  set t := rest.map (fun x => x / v) with ht
  have hc0 : (0 : ℚ) < v / v := by rw [div_self (ne_of_gt hv)]; norm_num
  have hcpos : ∀ y ∈ (v / v) :: t, 0 < y := by
    intro y hy
    rcases List.mem_cons.mp hy with h | h
    · subst h; exact hc0
    · rw [ht] at h
      obtain ⟨x, hx, rfl⟩ := List.mem_map.mp h
      exact div_pos (hpos x (by simp [hx])) hv
  have hD : drawdowns (v :: rest) = dd_from (v / v) ((v / v) :: t) := by
    unfold drawdowns
    rw [hC]
  have hhead : dd_from (v / v) ((v / v) :: t) = 0 :: dd_from (v / v) t := by
    rw [dd_from]
    simp
  have hD0 : drawdowns (v :: rest) = 0 :: dd_from (v / v) t := by rw [hD, hhead]
  have hb : ∀ d ∈ 0 :: dd_from (v / v) t, -100 ≤ d ∧ d ≤ 0 := by
    rw [← hhead]
    exact dd_from_bounds _ _ hc0 hcpos
  have htail_le : (dd_from (v / v) t).foldl min 0 ≤ 0 := foldl_min_le_init _ _
  have habs : max_drawdown (v :: rest) = -((dd_from (v / v) t).foldl min 0) := by
    rw [max_drawdown, hD0, list_min]
    exact abs_of_nonpos htail_le
  have hmin_ge : -100 ≤ (dd_from (v / v) t).foldl min 0 :=
    le_foldl_min _ 0 (-100) (by norm_num)
      (fun x hx => (hb x (List.mem_cons_of_mem 0 hx)).1)
  refine ⟨?_, ?_, ?_⟩
  · rw [max_drawdown]
    exact abs_nonneg _
  · rw [habs]
    linarith
  · rw [habs, neg_eq_zero]
    have step1 : (dd_from (v / v) t).foldl min 0 = 0 ↔
        ∀ d ∈ 0 :: dd_from (v / v) t, d = 0 := by
      constructor
      · intro hmin d hd
        rcases List.mem_cons.mp hd with h | h
        · exact h
        · have h1 : (0 : ℚ) ≤ d := hmin ▸ foldl_min_le_mem _ 0 d h
          exact le_antisymm (hb d hd).2 h1
      · intro hall
        refine le_antisymm htail_le ?_
        exact le_foldl_min _ 0 0 le_rfl
          (fun x hx => (hall x (List.mem_cons_of_mem 0 hx)).ge)
    rw [step1, ← hhead]
    rw [dd_from_zero_iff _ _ hc0 hcpos]
    rw [List.chain_cons]
    have step2 : (v / v ≤ v / v ∧ List.Chain (· ≤ ·) (v / v) t) ↔
        List.Chain (· ≤ ·) (v / v) t := by
      constructor
      · exact And.right
      · intro h; exact ⟨le_rfl, h⟩
    rw [step2]
    have step3 : List.Chain (· ≤ ·) (v / v) t ↔
        List.Chain' (· ≤ ·) ((v / v) :: t) := Iff.rfl
    rw [step3, ht]
    have hmap : (v / v :: List.map (fun x => x / v) rest) =
        List.map (fun x => x / v) (v :: rest) := by
      simp only [List.map_cons]
    rw [hmap, List.chain'_map]
    constructor
    · intro h
      exact h.imp fun a b hab => (div_le_div_iff_of_pos_right hv).mp hab
    · intro h
      exact h.imp fun a b hab => (div_le_div_iff_of_pos_right hv).mpr hab

/-- C7 witness: the series `[100, 90, 110]` has its maximum drawdown inside
the unit range and the zero-drawdown characterization holds for it. -/
theorem max_drawdown_spec_witness :
    0 ≤ max_drawdown [100, 90, 110] ∧ max_drawdown [100, 90, 110] ≤ 100 ∧
      (max_drawdown [100, 90, 110] = 0 ↔
        List.Chain' (· ≤ ·) ([100, 90, 110] : List ℚ)) :=
  max_drawdown_spec [100, 90, 110] (by simp) (by norm_num)

end Quant

